import Mathlib

/-!
Verification of the scraping/cleaning/publishing pipeline in `scripts.py`.

The pure field-cleaning and parsing helpers (`remove_bracket_refs`,
`parse_viewers`, `extract_year`), the table unifier (`unify_tables`), the
record filter (`clean_df`) and the counting loop of the Kafka publisher
(`produce_to_kafka`) are embedded as executable Lean functions over
`List Char` / a `Cell` value model desugaring pandas cells.

Modelling conventions:
* a pandas cell is `Cell.na` (NaN/None), a string, or a number (numeric
  cells are modelled by integers; only their string rendering and the fact
  that they are not `str` instances matter to the claims);
* Python floats are modelled by exact rationals `ℚ`;
* whitespace is the set of characters relevant to this data: the ASCII
  whitespace characters plus the no-break space U+00A0 (Python's `strip`
  and the regex class `\s` both treat these as whitespace);
* `str.lower` is modelled on the ASCII range, which is where every column
  name and every keyword ("million") in the program lives.
-/

/-- Whitespace as recognised by Python's `str.strip` / regex `\s`,
restricted to the characters that can occur here: ASCII whitespace and
the no-break space U+00A0 (third character of the mis-encoded dagger). -/
def isPySpace (c : Char) : Bool :=
  c = ' ' || c = '\t' || c = '\n' || c = '\r' || c = '\x0b' || c = '\x0c' || c = '\xa0'

/-- ASCII lower-casing, modelling `str.lower` on the data in play. -/
def asciiLower (c : Char) : Char :=
  if 'A' ≤ c ∧ c ≤ 'Z' then Char.ofNat (c.toNat + 32) else c

/-- `str.strip` from the left: drop leading whitespace. -/
def lstrip (l : List Char) : List Char := l.dropWhile isPySpace

/-- `str.strip` from the right: drop trailing whitespace
(written by structural recursion from the left). -/
def rstrip : List Char → List Char
  | [] => []
  | c :: rest =>
    if rstrip rest = [] then (if isPySpace c then [] else [c]) else c :: rstrip rest

/-- `str.strip`: drop leading and trailing whitespace. -/
def pyStrip (l : List Char) : List Char := rstrip (lstrip l)

/-- Helper for the `re.sub(r'\[.*?\]', '', s)` pass: given the text after
an opening `[`, return the text after the first closing `]`, provided no
newline intervenes (`.` does not match a newline). -/
def splitClose : List Char → Option (List Char)
  | [] => none
  | c :: rest =>
    if c = ']' then some rest
    else if c = '\n' then none
    else splitClose rest

/-- One left-to-right pass of `re.sub(r'\[.*?\]', '', s)`: each `[` that
is closed by a later `]` on the same line is removed together with the
bracketed span; the scan resumes after the `]`.  The `Nat` argument is
recursion fuel; `l.length` is always sufficient. -/
def rbrF : Nat → List Char → List Char
  | 0, l => l
  | _ + 1, [] => []
  | fuel + 1, c :: rest =>
    if c = '[' then
      match splitClose rest with
      | some rest' => rbrF fuel rest'
      | none => c :: rbrF fuel rest
    else c :: rbrF fuel rest

/-- `re.sub(r'\[.*?\]', '', s)` (line 76 of `scripts.py`). -/
def removeBrackets (l : List Char) : List Char := rbrF l.length l

/-- The mis-encoded dagger artifact removed on line 77 of `scripts.py`:
the three characters `â` `€` U+00A0 (the UTF-8 bytes of `†` read back in
a single-byte encoding). -/
def daggerChars : List Char := ['â', '€', '\xa0']

/-- `re.sub(r'â€ ', '', s)` (line 77): remove every occurrence of the
three-character artifact, scanning left to right. -/
def removeDagger : List Char → List Char
  | a :: b :: c :: rest =>
    if a = 'â' ∧ b = '€' ∧ c = '\xa0' then removeDagger rest
    else a :: removeDagger (b :: c :: rest)
  | l => l

/-- The string body of `remove_bracket_refs` (lines 76–78):
bracket-span removal, dagger removal, then `strip`. -/
def rbrStr (l : List Char) : List Char := pyStrip (removeDagger (removeBrackets l))

/-- A pandas cell: missing (NaN/None), a string, or a numeric value. -/
inductive Cell where
  | na : Cell
  | cstr : String → Cell
  | cnum : Int → Cell
  deriving DecidableEq, Repr

/-- Python `str()` of a cell (`str(nan)` is `"nan"`; the functions below
only ever apply it after an `isna` test, so that branch is inert). -/
def cellToString : Cell → String
  | Cell.na => "nan"
  | Cell.cstr s => s
  | Cell.cnum n => toString n

/-- `pd.isna` on a cell. -/
def cellIsNa : Cell → Bool
  | Cell.na => true
  | _ => false

/-- `remove_bracket_refs` (lines 73–78): a missing value is returned
unchanged, otherwise the value is stringified and cleaned. -/
def remove_bracket_refs : Cell → Cell
  | Cell.na => Cell.na
  | c => Cell.cstr ⟨rbrStr (cellToString c).data⟩

example : rbrStr "March 3, 2008[a]".data = "March 3, 2008".data := by decide
example : rbrStr "  x[1][2] y ".data = "x y".data := by decide

/-! ### The regex matchers of `parse_viewers` and `extract_year`

`re.search` tries each start position of the string from left to right;
this is the generic `scanSearch`.  At a fixed position each of the three
patterns in play is deterministic (backtracking inside `[0-9]+`, the
optional decimal group or `\s*` can never rescue a failed continuation,
because the character that follows a shortened greedy part can never
start the rest of the pattern), so each is a simple function of the
suffix. -/

/-- `re.search`: try the matcher at every start position (including the
empty suffix at the end), leftmost match wins. -/
def scanSearch (f : List Char → Option α) : List Char → Option α
  | [] => f []
  | l@(_ :: rest) =>
    match f l with
    | some r => some r
    | none => scanSearch f rest

/-- Numeric value of a digit run. -/
def digitsVal (l : List Char) : Nat :=
  l.foldl (fun a c => 10 * a + (c.toNat - '0'.toNat)) 0

/-- Value of `<intpart>.<fracpart>` as an exact rational
(`float(m.group(1))` in the source, modelled exactly). -/
def decVal (ip fp : List Char) : ℚ :=
  (digitsVal ip : ℚ) + (digitsVal fp : ℚ) / (10 : ℚ) ^ fp.length

/-- Continuation `\s*million` of the first viewers pattern: maximal run
of whitespace, then the literal `million`. -/
def wsMillion (l : List Char) : Bool :=
  "million".data.isPrefixOf (l.dropWhile isPySpace)

/-- Match of `([0-9]+(?:\.[0-9]+)?)\s*million` anchored at the head of
the suffix, returning the value of group 1.  The greedy integer and
fraction runs are maximal digit runs; the optional decimal group is
tried first (greedy) and dropped if its continuation fails. -/
def matchMillionAt (l : List Char) : Option ℚ :=
  let ds := l.takeWhile Char.isDigit
  if ds.isEmpty then none
  else
    match l.drop ds.length with
    | '.' :: r2 =>
      let fs := r2.takeWhile Char.isDigit
      if ¬fs.isEmpty ∧ wsMillion (r2.drop fs.length) then some (decVal ds fs)
      else if wsMillion ('.' :: r2) then some (decVal ds []) else none
    | r1 => if wsMillion r1 then some (decVal ds []) else none

/-- Match of `([0-9]{4,})` anchored at the head of the suffix: the
maximal digit run here, provided it has at least 4 digits. -/
def matchRun4At (l : List Char) : Option Nat :=
  let ds := l.takeWhile Char.isDigit
  if 4 ≤ ds.length then some (digitsVal ds) else none

/-- Match of `(\d{4})` anchored at the head of the suffix: the next four
characters, provided they are all digits. -/
def matchYear4At : List Char → Option Nat
  | a :: b :: c :: d :: _ =>
    if a.isDigit && b.isDigit && c.isDigit && d.isDigit then
      some (digitsVal [a, b, c, d])
    else none
  | _ => none

/-- Full-string match of `^([0-9]+(?:\.[0-9]+)?)$` (the stripped string
cannot end in a newline, so `$` is the end of the string). -/
def matchFullNumber (l : List Char) : Option ℚ :=
  let ds := l.takeWhile Char.isDigit
  if ds.isEmpty then none
  else
    match l.drop ds.length with
    | [] => some (decVal ds [])
    | '.' :: r2 =>
      let fs := r2.takeWhile Char.isDigit
      if ¬fs.isEmpty ∧ (r2.drop fs.length).isEmpty then some (decVal ds fs) else none
    | _ => none

/-- The cleaning prefix of `parse_viewers` (lines 84–86): lower-case,
`remove_bracket_refs`, drop the thousands separators, strip. -/
def cleanViewersStr (l : List Char) : List Char :=
  pyStrip ((rbrStr (l.map asciiLower)).filter (fun c => ¬(c = ',')))

/-- `parse_viewers` on the stringified value (lines 84–110): the three
layered heuristics in source order, first match wins. -/
def parse_viewersStr (l : List Char) : Option ℚ :=
  let s := cleanViewersStr l
  match scanSearch matchMillionAt s with
  | some q => some q
  | none =>
    match scanSearch matchRun4At s with
    | some n => some ((n : ℚ) / 1000000)
    | none =>
      match matchFullNumber s with
      | some v => if v > 100 then some (v / 1000000) else some v
      | none => none

/-- `parse_viewers` (lines 80–110): `None` for a missing value,
otherwise the layered heuristic on `str(val)`. -/
def parse_viewers : Cell → Option ℚ
  | Cell.na => none
  | c => parse_viewersStr (cellToString c).data

/-- `extract_year` (lines 112–119): `None` for a missing value,
otherwise the first `\d{4}` match in the reference-stripped string. -/
def extract_year : Cell → Option Nat
  | Cell.na => none
  | c => scanSearch matchYear4At (rbrStr (cellToString c).data)

example : parse_viewers (Cell.cstr "20.1 million[3]") = some (201 / 10 : ℚ) := by
  have h : parse_viewers (Cell.cstr "20.1 million[3]") = some (decVal "20".data "1".data) := rfl
  have d1 : digitsVal "20".data = 20 := by decide
  have d2 : digitsVal "1".data = 1 := by decide
  rw [h]; simp [decVal, d1, d2]; norm_num

example : parse_viewers (Cell.cstr "1234567") = some (1234567 / 1000000 : ℚ) := by
  have h : parse_viewers (Cell.cstr "1234567") =
      some ((digitsVal "1234567".data : ℚ) / 1000000) := rfl
  have d : digitsVal "1234567".data = 1234567 := by decide
  rw [h, d]; norm_num

example : parse_viewers (Cell.cstr "45") = some 45 := by
  have h : parse_viewers (Cell.cstr "45") =
      if decVal "45".data [] > 100 then some (decVal "45".data [] / 1000000)
      else some (decVal "45".data []) := rfl
  have hv : decVal "45".data [] = 45 := by
    have d : digitsVal "45".data = 45 := by decide
    have d0 : digitsVal [] = 0 := by decide
    simp [decVal, d, d0]
  rw [h, hv]; norm_num

example : parse_viewers (Cell.cstr "450") = some (45 / 100000 : ℚ) := by
  have h : parse_viewers (Cell.cstr "450") =
      if decVal "450".data [] > 100 then some (decVal "450".data [] / 1000000)
      else some (decVal "450".data []) := rfl
  have hv : decVal "450".data [] = 450 := by
    have d : digitsVal "450".data = 450 := by decide
    have d0 : digitsVal [] = 0 := by decide
    simp [decVal, d, d0]
  rw [h, hv]; norm_num

example : parse_viewers (Cell.cstr "n/a") = none := by decide
example : parse_viewers Cell.na = none := by decide
example : extract_year (Cell.cstr "March 3, 2008[a]") = some 2008 := by decide
example : extract_year (Cell.cstr "unknown") = none := by decide
example : extract_year (Cell.cstr "12345") = some 1234 := by decide

/-! ### Spec-side formulation of the searches

The claims describe `re.search` as "the first position whose suffix
matches"; `rangeSearch` states that directly over position indices, and
is proved equal to the scanning implementation. -/

/-- First match over explicit start positions `0, 1, …, l.length`. -/
def rangeSearch (f : List Char → Option α) (l : List Char) : Option α :=
  (List.range (l.length + 1)).findSome? (fun i => f (l.drop i))

theorem findSome?_map_fn (g : β → Option γ) (h : α → β) (l : List α) :
    (l.map h).findSome? g = l.findSome? (fun a => g (h a)) := by
  induction l with
  | nil => rfl
  | cons a t ih => simp [List.findSome?_cons, ih]

theorem scanSearch_eq_rangeSearch (f : List Char → Option α) (l : List Char) :
    scanSearch f l = rangeSearch f l := by
  induction l with
  | nil =>
    rw [scanSearch, rangeSearch]
    simp only [List.length_nil, Nat.zero_add, List.range_succ, List.range_zero,
      List.nil_append, List.findSome?_cons, List.findSome?_nil, List.drop_zero]
    cases f [] <;> rfl
  | cons c r ih =>
    rw [scanSearch, rangeSearch, List.range_succ_eq_map, List.findSome?_cons]
    simp only [List.drop_zero]
    rw [findSome?_map_fn]
    simp only [List.drop_succ_cons, List.length_cons]
    rw [ih, rangeSearch]
    cases f (c :: r) <;> rfl

/-- Claim C1's layered heuristic, stated in the claim's own order; layer
three keeps the value when it is ≤ 100 and otherwise divides. -/
def viewersSpecLayers (t : List Char) : Option ℚ :=
  (rangeSearch matchMillionAt t).orElse fun _ =>
    ((rangeSearch matchRun4At t).map (fun n => (n : ℚ) / 1000000)).orElse fun _ =>
      (matchFullNumber t).map (fun v => if v ≤ 100 then v else v / 1000000)

/-- Claim C1's heuristic applied to the cleaned string. -/
def viewersSpec (l : List Char) : Option ℚ := viewersSpecLayers (cleanViewersStr l)

/-- Maximal digit runs of a string, in order (left column: accumulator
of the current run, reversed). -/
def digitRunsAux (cur : List Char) : List Char → List (List Char)
  | [] => if cur.isEmpty then [] else [cur.reverse]
  | c :: rest =>
    if c.isDigit then digitRunsAux (c :: cur) rest
    else if cur.isEmpty then digitRunsAux [] rest
    else cur.reverse :: digitRunsAux [] rest

/-- Maximal digit runs of a string, in order. -/
def digitRuns (l : List Char) : List (List Char) := digitRunsAux [] l

/-- Claim C4 as written: after reference stripping, the first maximal
run of exactly 4 digits, if any. -/
def yearExact4Spec (l : List Char) : Option Nat :=
  ((digitRuns (rbrStr l)).find? (fun r => r.length = 4)).map digitsVal

/-- Amended claim C4: after reference stripping, the first four
consecutive digits (first `\d{4}` window), if any. -/
def yearWindowSpec (l : List Char) : Option Nat :=
  rangeSearch matchYear4At (rbrStr l)

/-- C1: `parse_viewers` applies the layered heuristic in this priority
order, first match wins — (1) after comma removal, a `<number> million`
pattern gives that number directly; (2) else a run of 4 or more
consecutive digits gives that number divided by 1,000,000; (3) else a
string that is entirely one optionally-decimal number gives the number
itself when ≤ 100 and the number divided by 1,000,000 otherwise;
(4) else absent — and on the spec's examples: `"20.1 million[3]"` ↦
20.1, `"1234567"` ↦ 1.234567, `"45"` ↦ 45.0, `"450"` ↦ 0.00045,
non-numeric garbage ↦ absent. -/
theorem C1_parse_viewers_layered_heuristic :
    (∀ s : String, parse_viewers (Cell.cstr s) = viewersSpec s.data) ∧
    parse_viewers (Cell.cstr "20.1 million[3]") = some (201 / 10 : ℚ) ∧
    parse_viewers (Cell.cstr "1234567") = some (1234567 / 1000000 : ℚ) ∧
    parse_viewers (Cell.cstr "45") = some 45 ∧
    parse_viewers (Cell.cstr "450") = some (45 / 100000 : ℚ) ∧
    parse_viewers (Cell.cstr "n/a") = none := by
  refine ⟨?_, ?_, ?_, ?_, ?_, by decide⟩
  · intro s
    show parse_viewersStr s.data = viewersSpec s.data
    simp only [parse_viewersStr, viewersSpec, viewersSpecLayers,
      ← scanSearch_eq_rangeSearch]
    cases scanSearch matchMillionAt (cleanViewersStr s.data) with
    | some q => rfl
    | none =>
      cases scanSearch matchRun4At (cleanViewersStr s.data) with
      | some n => rfl
      | none =>
        cases matchFullNumber (cleanViewersStr s.data) with
        | none => rfl
        | some v =>
          rcases le_or_lt v 100 with h | h
          · simp [Option.orElse, not_lt.2 h, h]
          · simp [Option.orElse, not_le.2 h, h]
  · have h : parse_viewers (Cell.cstr "20.1 million[3]") =
        some (decVal "20".data "1".data) := rfl
    have d1 : digitsVal "20".data = 20 := by decide
    have d2 : digitsVal "1".data = 1 := by decide
    rw [h]; simp [decVal, d1, d2]; norm_num
  · have h : parse_viewers (Cell.cstr "1234567") =
        some ((digitsVal "1234567".data : ℚ) / 1000000) := rfl
    have d : digitsVal "1234567".data = 1234567 := by decide
    rw [h, d]; norm_num
  · have h : parse_viewers (Cell.cstr "45") =
        if decVal "45".data [] > 100 then some (decVal "45".data [] / 1000000)
        else some (decVal "45".data []) := rfl
    have hv : decVal "45".data [] = 45 := by
      have d : digitsVal "45".data = 45 := by decide
      have d0 : digitsVal [] = 0 := by decide
      simp [decVal, d, d0]
    rw [h, hv]; norm_num
  · have h : parse_viewers (Cell.cstr "450") =
        if decVal "450".data [] > 100 then some (decVal "450".data [] / 1000000)
        else some (decVal "450".data []) := rfl
    have hv : decVal "450".data [] = 450 := by
      have d : digitsVal "450".data = 450 := by decide
      have d0 : digitsVal [] = 0 := by decide
      simp [decVal, d, d0]
    rw [h, hv]; norm_num

/-- C4 as written fails on the code: for `"12345"` the claim's "first
run of exactly 4 digits" does not exist (the only maximal digit run has
five digits), yet `extract_year` returns 1234, the first four
consecutive digits of that run. -/
theorem C4_counterexample :
    ¬ (extract_year (Cell.cstr "12345") = yearExact4Spec "12345".data) := by decide

/-- C4 amended: for every date string, `extract_year` returns the
integer value of the first four consecutive digits (the first `\d{4}`
window, which starts the first digit run of length ≥ 4) found after
reference-marker stripping, and absent when no such window exists; in
particular `"March 3, 2008[a]"` yields 2008 and `"unknown"` yields
absent. -/
theorem C4_extract_year_first_window :
    (∀ s : String, extract_year (Cell.cstr s) = yearWindowSpec s.data) ∧
    extract_year Cell.na = none ∧
    extract_year (Cell.cstr "March 3, 2008[a]") = some 2008 ∧
    extract_year (Cell.cstr "unknown") = none := by
  refine ⟨?_, by decide, by decide, by decide⟩
  intro s
  show scanSearch matchYear4At (rbrStr s.data) = yearWindowSpec s.data
  rw [yearWindowSpec, ← scanSearch_eq_rangeSearch]

/-! ### Idempotence analysis of the reference strip (claim C5)

One pass of the bracket removal leaves no `[` that is still closed on
its line (`noBracketPair`), and that property is preserved by the final
`strip`; a second bracket pass is therefore the identity.  The dagger
removal however is not idempotent: deleting an occurrence can glue a
fresh occurrence together from its neighbours.  The idempotence theorem
is proved for strings without the dagger's first character, and refuted
in general by a concrete counterexample. -/

/-- No `[` in the list is closed by a later `]` on the same line, i.e.
the bracket pass has nothing left to remove. -/
def noBracketPair : List Char → Bool
  | [] => true
  | c :: r => (!(c = '[') || (splitClose r).isNone) && noBracketPair r

theorem splitClose_some_length {l r' : List Char} (h : splitClose l = some r') :
    r'.length < l.length := by
  induction l generalizing r' with
  | nil => simp [splitClose] at h
  | cons c rest ih =>
    rw [splitClose] at h
    by_cases hc : c = ']'
    · simp [hc] at h
      subst h
      simp only [List.length_cons]
      omega
    · by_cases hn : c = '\n'
      · simp [hc, hn] at h
      · simp [hc, hn] at h
        have := ih h
        simp [List.length_cons]; omega

theorem mem_of_mem_splitClose {l r' : List Char} {x : Char}
    (h : splitClose l = some r') (hx : x ∈ r') : x ∈ l := by
  induction l generalizing r' with
  | nil => simp [splitClose] at h
  | cons c rest ih =>
    rw [splitClose] at h
    by_cases hc : c = ']'
    · simp [hc] at h
      exact List.mem_cons_of_mem _ (h ▸ hx)
    · by_cases hn : c = '\n'
      · simp [hc, hn] at h
      · simp [hc, hn] at h
        exact List.mem_cons_of_mem _ (ih h hx)

theorem mem_of_mem_rbrF {x : Char} : ∀ (f : Nat) (l : List Char), x ∈ rbrF f l → x ∈ l := by
  intro f
  induction f with
  | zero => intro l h; simpa [rbrF] using h
  | succ f ih =>
    intro l h
    match l with
    | [] => simp [rbrF] at h
    | c :: rest =>
      rw [rbrF] at h
      by_cases hc : c = '['
      · rw [if_pos hc] at h
        cases hs : splitClose rest with
        | some rest' =>
          rw [hs] at h
          exact List.mem_cons_of_mem _ (mem_of_mem_splitClose hs (ih rest' h))
        | none =>
          rw [hs] at h
          rcases List.mem_cons.1 h with h1 | h1
          · exact h1 ▸ List.mem_cons_self _ _
          · exact List.mem_cons_of_mem _ (ih rest h1)
      · rw [if_neg hc] at h
        rcases List.mem_cons.1 h with h1 | h1
        · exact h1 ▸ List.mem_cons_self _ _
        · exact List.mem_cons_of_mem _ (ih rest h1)

theorem splitClose_rbrF_none :
    ∀ (f : Nat) (l : List Char), splitClose l = none → splitClose (rbrF f l) = none := by
  intro f
  induction f with
  | zero => intro l h; simpa [rbrF] using h
  | succ f ih =>
    intro l h
    match l with
    | [] => simp [rbrF, splitClose]
    | c :: rest =>
      rw [splitClose] at h
      by_cases hc : c = ']'
      · simp [hc] at h
      · by_cases hn : c = '\n'
        · rw [rbrF]
          have hcb : ¬ c = '[' := by simp [hn]
          rw [if_neg hcb]
          rw [splitClose, if_neg hc, if_pos hn]
        · rw [if_neg hc, if_neg hn] at h
          rw [rbrF]
          by_cases hb : c = '['
          · rw [if_pos hb, h]
            rw [splitClose]
            have h1 : ¬ c = ']' := hc
            rw [if_neg h1, if_neg hn]
            exact ih rest h
          · rw [if_neg hb]
            rw [splitClose, if_neg hc, if_neg hn]
            exact ih rest h

theorem noBracketPair_rbrF :
    ∀ (f : Nat) (l : List Char), l.length ≤ f → noBracketPair (rbrF f l) = true := by
  intro f
  induction f with
  | zero =>
    intro l h
    have : l = [] := List.length_eq_zero.1 (Nat.le_zero.1 h)
    subst this
    simp [rbrF, noBracketPair]
  | succ f ih =>
    intro l h
    match l with
    | [] => simp [rbrF, noBracketPair]
    | c :: rest =>
      have hrest : rest.length ≤ f := by
        simp only [List.length_cons] at h; omega
      rw [rbrF]
      by_cases hb : c = '['
      · rw [if_pos hb]
        cases hs : splitClose rest with
        | some rest' =>
          have : rest'.length ≤ f :=
            le_of_lt (lt_of_lt_of_le (splitClose_some_length hs) hrest)
          exact ih rest' this
        | none =>
          rw [noBracketPair]
          have h1 : splitClose (rbrF f rest) = none := splitClose_rbrF_none f rest hs
          simp [h1, ih rest hrest]
      · rw [if_neg hb]
        rw [noBracketPair]
        simp [hb, ih rest hrest]

theorem rbrF_of_noBracketPair :
    ∀ (f : Nat) (l : List Char), noBracketPair l = true → rbrF f l = l := by
  intro f
  induction f with
  | zero => intro l _; rfl
  | succ f ih =>
    intro l h
    match l with
    | [] => rfl
    | c :: rest =>
      rw [noBracketPair] at h
      simp only [Bool.and_eq_true, Bool.or_eq_true, Bool.not_eq_true',
        Option.isNone_iff_eq_none, decide_eq_false_iff_not] at h
      rw [rbrF]
      by_cases hb : c = '['
      · rw [if_pos hb]
        rcases h.1 with h1 | h1
        · exact absurd hb h1
        · rw [h1, ih rest h.2]
      · rw [if_neg hb, ih rest h.2]

theorem noBracketPair_tail {c : Char} {l : List Char}
    (h : noBracketPair (c :: l) = true) : noBracketPair l = true := by
  rw [noBracketPair, Bool.and_eq_true] at h
  exact h.2

theorem noBracketPair_dropWhile (p : Char → Bool) :
    ∀ l : List Char, noBracketPair l = true → noBracketPair (l.dropWhile p) = true := by
  intro l
  induction l with
  | nil => intro h; exact h
  | cons c rest ih =>
    intro h
    rw [List.dropWhile_cons]
    by_cases hp : p c = true
    · rw [if_pos hp]
      exact ih (noBracketPair_tail h)
    · rw [if_neg hp]
      exact h

theorem splitClose_rstrip_none :
    ∀ l : List Char, splitClose l = none → splitClose (rstrip l) = none := by
  intro l
  induction l with
  | nil => intro h; exact h
  | cons c rest ih =>
    intro h
    rw [splitClose] at h
    by_cases hc : c = ']'
    · simp [hc] at h
    · by_cases hn : c = '\n'
      · rw [rstrip]
        by_cases hr : rstrip rest = []
        · rw [if_pos hr]
          by_cases hw : isPySpace c = true
          · rw [if_pos hw]; rfl
          · rw [if_neg hw]
            rw [splitClose, if_neg hc, if_pos hn]
        · rw [if_neg hr]
          rw [splitClose, if_neg hc, if_pos hn]
      · rw [if_neg hc, if_neg hn] at h
        rw [rstrip]
        by_cases hr : rstrip rest = []
        · rw [if_pos hr]
          by_cases hw : isPySpace c = true
          · rw [if_pos hw]; rfl
          · rw [if_neg hw]
            rw [splitClose, if_neg hc, if_neg hn]
            rfl
        · rw [if_neg hr]
          rw [splitClose, if_neg hc, if_neg hn]
          exact ih h

theorem noBracketPair_rstrip :
    ∀ l : List Char, noBracketPair l = true → noBracketPair (rstrip l) = true := by
  intro l
  induction l with
  | nil => intro h; exact h
  | cons c rest ih =>
    intro h
    have hrest := noBracketPair_tail h
    rw [rstrip]
    by_cases hr : rstrip rest = []
    · rw [if_pos hr]
      by_cases hw : isPySpace c = true
      · rw [if_pos hw]; rfl
      · rw [if_neg hw]
        rw [noBracketPair, noBracketPair]
        simp [splitClose]
    · rw [if_neg hr]
      rw [noBracketPair]
      rw [noBracketPair] at h
      simp only [Bool.and_eq_true, Bool.or_eq_true, Bool.not_eq_true',
        Option.isNone_iff_eq_none, decide_eq_false_iff_not] at h ⊢
      refine ⟨?_, ih hrest⟩
      rcases h.1 with h1 | h1
      · exact Or.inl h1
      · exact Or.inr (splitClose_rstrip_none rest h1)

theorem mem_of_mem_rstrip {x : Char} :
    ∀ l : List Char, x ∈ rstrip l → x ∈ l := by
  intro l
  induction l with
  | nil => intro h; exact h
  | cons c rest ih =>
    intro h
    rw [rstrip] at h
    by_cases hr : rstrip rest = []
    · rw [if_pos hr] at h
      by_cases hw : isPySpace c = true
      · rw [if_pos hw] at h; simp at h
      · rw [if_neg hw] at h
        simp at h
        exact h ▸ List.mem_cons_self _ _
    · rw [if_neg hr] at h
      rcases List.mem_cons.1 h with h1 | h1
      · exact h1 ▸ List.mem_cons_self _ _
      · exact List.mem_cons_of_mem _ (ih h1)

theorem mem_of_mem_dropWhile {x : Char} (p : Char → Bool) :
    ∀ l : List Char, x ∈ l.dropWhile p → x ∈ l := by
  intro l
  induction l with
  | nil => intro h; exact h
  | cons c rest ih =>
    intro h
    rw [List.dropWhile_cons] at h
    by_cases hp : p c = true
    · rw [if_pos hp] at h
      exact List.mem_cons_of_mem _ (ih h)
    · rw [if_neg hp] at h
      exact h

theorem mem_of_mem_pyStrip {x : Char} {l : List Char} (h : x ∈ pyStrip l) : x ∈ l :=
  mem_of_mem_dropWhile isPySpace l (mem_of_mem_rstrip (lstrip l) h)

theorem rstrip_rstrip : ∀ l : List Char, rstrip (rstrip l) = rstrip l := by
  intro l
  induction l with
  | nil => rfl
  | cons c rest ih =>
    rw [rstrip]
    by_cases hr : rstrip rest = []
    · rw [if_pos hr]
      by_cases hw : isPySpace c = true
      · rw [if_pos hw]; rfl
      · rw [if_neg hw]
        simp [rstrip, hw]
    · rw [if_neg hr]
      rw [rstrip, ih, if_neg hr]

theorem lstrip_head_not_ws : ∀ {l : List Char} {c : Char} {t : List Char},
    lstrip l = c :: t → isPySpace c = false := by
  intro l
  induction l with
  | nil => intro c t h; simp [lstrip] at h
  | cons a rest ih =>
    intro c t h
    rw [lstrip, List.dropWhile_cons] at h
    by_cases hp : isPySpace a = true
    · rw [if_pos hp] at h
      exact ih h
    · rw [if_neg hp] at h
      cases h
      simpa using hp

theorem rstrip_cons_shape (c : Char) (rest : List Char) :
    rstrip (c :: rest) = [] ∨ ∃ t, rstrip (c :: rest) = c :: t := by
  rw [rstrip]
  by_cases hr : rstrip rest = []
  · rw [if_pos hr]
    by_cases hw : isPySpace c = true
    · exact Or.inl (if_pos hw)
    · exact Or.inr ⟨[], if_neg hw⟩
  · rw [if_neg hr]
    exact Or.inr ⟨rstrip rest, rfl⟩

theorem lstrip_rstrip_lstrip (l : List Char) :
    lstrip (rstrip (lstrip l)) = rstrip (lstrip l) := by
  cases hm : lstrip l with
  | nil => rfl
  | cons c t =>
    have hc : isPySpace c = false := lstrip_head_not_ws hm
    rcases rstrip_cons_shape c t with h1 | ⟨t', h1⟩
    · rw [h1]; rfl
    · rw [h1, lstrip, List.dropWhile_cons, hc]
      simp

theorem pyStrip_idem (l : List Char) : pyStrip (pyStrip l) = pyStrip l := by
  show rstrip (lstrip (rstrip (lstrip l))) = rstrip (lstrip l)
  rw [lstrip_rstrip_lstrip, rstrip_rstrip]

theorem removeDagger_of_not_mem : ∀ l : List Char, 'â' ∉ l → removeDagger l = l := by
  intro l
  induction l with
  | nil => intro _; rfl
  | cons a tail ih =>
    intro h
    cases tail with
    | nil => rfl
    | cons b tail2 =>
      cases tail2 with
      | nil => rfl
      | cons c rest =>
        rw [removeDagger]
        have ha : ¬ a = 'â' := by
          rintro rfl; exact h (List.mem_cons_self _ _)
        rw [if_neg (by simp [ha])]
        congr 1
        exact ih (fun hm => h (List.mem_cons_of_mem _ hm))

theorem rbrStr_idem_of_no_dagger {l : List Char} (h : 'â' ∉ l) :
    rbrStr (rbrStr l) = rbrStr l := by
  have hb1 : 'â' ∉ removeBrackets l := fun hm => h (mem_of_mem_rbrF _ _ hm)
  have hd1 : removeDagger (removeBrackets l) = removeBrackets l :=
    removeDagger_of_not_mem _ hb1
  have hfs : rbrStr l = pyStrip (removeBrackets l) := by rw [rbrStr, hd1]
  have hnb : noBracketPair (removeBrackets l) = true :=
    noBracketPair_rbrF l.length l (le_refl _)
  have hnb2 : noBracketPair (rbrStr l) = true := by
    rw [hfs]
    exact noBracketPair_rstrip _ (noBracketPair_dropWhile _ _ hnb)
  have hmem : 'â' ∉ rbrStr l := by
    rw [hfs]; exact fun hm => hb1 (mem_of_mem_pyStrip hm)
  have hb2 : removeBrackets (rbrStr l) = rbrStr l :=
    rbrF_of_noBracketPair _ _ hnb2
  calc rbrStr (rbrStr l)
      = pyStrip (removeDagger (removeBrackets (rbrStr l))) := rfl
    _ = pyStrip (rbrStr l) := by rw [hb2, removeDagger_of_not_mem _ hmem]
    _ = pyStrip (pyStrip (removeBrackets l)) := by rw [hfs]
    _ = pyStrip (removeBrackets l) := pyStrip_idem _
    _ = rbrStr l := hfs.symm

/-- C5 as written fails on the code: removing an occurrence of the
three-character dagger artifact can glue a new occurrence together from
the surrounding characters, so a second application of
`remove_bracket_refs` can still change the string.  Witness input:
`â` `â` `€` NBSP `€` NBSP `q` — one strip leaves `â` `€` NBSP `q`
(a fresh artifact followed by `q`), a second strip leaves `q`. -/
theorem C5_counterexample :
    ¬ (remove_bracket_refs (remove_bracket_refs
          (Cell.cstr ⟨['â', 'â', '€', '\xa0', '€', '\xa0', 'q']⟩)) =
        remove_bracket_refs (Cell.cstr ⟨['â', 'â', '€', '\xa0', '€', '\xa0', 'q']⟩)) := by
  decide

/-- C5 amended: the reference strip is idempotent on every string that
does not contain the first character `â` of the mis-encoded dagger
artifact (on such strings the dagger pass is inert, and the bracket
pass plus trim is idempotent). -/
theorem C5_rbr_idempotent_amended (s : String) (h : 'â' ∉ s.data) :
    remove_bracket_refs (remove_bracket_refs (Cell.cstr s)) =
      remove_bracket_refs (Cell.cstr s) := by
  show Cell.cstr ⟨rbrStr (rbrStr s.data)⟩ = Cell.cstr ⟨rbrStr s.data⟩
  rw [rbrStr_idem_of_no_dagger h]

theorem C5_rbr_idempotent_amended_witness :
    'â' ∉ "Feb 12, 2023[1]".data ∧
      remove_bracket_refs (remove_bracket_refs (Cell.cstr "Feb 12, 2023[1]")) =
        remove_bracket_refs (Cell.cstr "Feb 12, 2023[1]") :=
  ⟨by decide, C5_rbr_idempotent_amended "Feb 12, 2023[1]" (by decide)⟩

/-! ### Table unification (`unify_tables`) and record cleaning (`clean_df`) -/

/-- A raw table row: the ordered column-label/value pairs of
`row.to_dict()` (labels already stringified, line 50). -/
abbrev RawTableRow := List (String × Cell)

/-- ASCII lower-casing of a string (`k.lower()` on column labels). -/
def asciiLowerStr (s : String) : String := ⟨s.data.map asciiLower⟩

/-- `keys = {k.lower(): k for k in rowdict}` followed by `keys.get(c)`:
the original label of the last column whose lower-casing is `c`
(a later duplicate overwrites an earlier one in the comprehension). -/
def keysGet (row : RawTableRow) (c : String) : Option String :=
  ((row.map Prod.fst).filter (fun k => asciiLowerStr k = c)).getLast?

/-- `rowdict.get(k)`: the value stored under the exact label `k`. -/
def rowGet (row : RawTableRow) (k : String) : Option Cell :=
  (row.find? (fun p => p.1 = k)).map Prod.snd

/-- `rowdict.get(keys.get(c₁) or keys.get(c₂) or …, None)`: resolve the
first present candidate column, case-insensitively, and read its value;
`Cell.na` when no candidate is present. -/
def lookupChain (row : RawTableRow) (cands : List String) : Cell :=
  ((cands.findSome? (keysGet row)).bind (rowGet row)).getD Cell.na

/-- Title candidates of line 54, in source order. -/
def titleCands : List String :=
  ["show", "programme", "program", "broadcast", "episode", "title"]

/-- Viewers candidates of line 56, in source order (the source repeats
the last key; the repetition is kept and is inert). -/
def viewersCands : List String :=
  ["viewers", "number of viewers", "number of viewers (millions)",
   "number of viewers (millions)"]

/-- Network candidates of line 57. -/
def networkCands : List String := ["network", "channel"]

/-- The fallback test of lines 59–63: a cell holding a string whose
strip is non-empty (`isinstance(v, str) and len(v.strip()) > 0`). -/
def isNonBlankStrCell : Cell → Bool
  | Cell.cstr s => ¬(pyStrip s.data).isEmpty
  | _ => false

/-- Fallback title (lines 58–63): the first cell in original column
order holding a non-blank string; `Cell.na` when none exists. -/
def firstNonEmptyStringCell (row : RawTableRow) : Cell :=
  match row.find? (fun p => isNonBlankStrCell p.2) with
  | some p => p.2
  | none => Cell.na

/-- Title resolution of lines 54–63: candidate chain, then the fallback
scan when the resolved value is missing. -/
def resolveTitle (row : RawTableRow) : Cell :=
  match ((titleCands.findSome? (keysGet row)).bind (rowGet row)).getD Cell.na with
  | Cell.na => firstNonEmptyStringCell row
  | v => v

/-- The normalized record of lines 64–69. -/
structure NormalizedRecord where
  title : Cell
  date : Cell
  viewers : Cell
  network : Cell
  deriving DecidableEq, Repr

/-- One row of `unify_tables`' loop body (lines 51–69). -/
def normalizeRow (row : RawTableRow) : NormalizedRecord :=
  { title := resolveTitle row
    date := lookupChain row ["date"]
    viewers := lookupChain row viewersCands
    network := lookupChain row networkCands }

/-- `unify_tables` (lines 44–71): raises exactly when the list of
tables is empty, otherwise one normalized record per row, tables and
rows in encounter order. -/
def unify_tables (dfs : List (List RawTableRow)) : Except String (List NormalizedRecord) :=
  if dfs.isEmpty then Except.error "No tables found on the page."
  else Except.ok (dfs.flatten.map normalizeRow)

/-- `re.sub(r'\s+', ' ', s)` (line 129): collapse every whitespace run
into a single space (the flag records being inside a run). -/
def collapseWsAux : Bool → List Char → List Char
  | _, [] => []
  | inRun, c :: rest =>
    if isPySpace c then
      if inRun then collapseWsAux true rest else ' ' :: collapseWsAux true rest
    else c :: collapseWsAux false rest

/-- Whitespace-run collapse from outside a run. -/
def collapseWs (l : List Char) : List Char := collapseWsAux false l

/-- `.fillna('')` then `.astype(str)` on a title cell. -/
def fillStr : Cell → String
  | Cell.na => ""
  | c => cellToString c

/-- A cleaned record: the four (bracket-stripped) fields plus the three
derived columns of `clean_df`. -/
structure CleanedRecord where
  title : String
  date : Cell
  viewers : Cell
  network : Cell
  title_clean : String
  viewers_millions : Option ℚ
  year : Option Nat
  deriving DecidableEq, Repr

/-- The per-record body of `clean_df` (lines 121–134): bracket-strip all
four fields; normalize the title (`fillna('') → str → strip → collapse
whitespace`), lower-case it into `title_clean`; parse viewers and year. -/
def cleanRecord (r : NormalizedRecord) : CleanedRecord :=
  let t1 : List Char := collapseWs (pyStrip (fillStr (remove_bracket_refs r.title)).data)
  let viewers1 := remove_bracket_refs r.viewers
  let date1 := remove_bracket_refs r.date
  { title := ⟨t1⟩
    date := date1
    viewers := viewers1
    network := remove_bracket_refs r.network
    title_clean := ⟨t1.map asciiLower⟩
    viewers_millions := parse_viewers viewers1
    year := extract_year date1 }

/-- `clean_df` (lines 121–139): derive the cleaned records, then filter
out empty titles (line 135) and missing viewer values (line 136); the
index reset of line 138 does not reorder. -/
def clean_df (rs : List NormalizedRecord) : List CleanedRecord :=
  ((rs.map cleanRecord).filter (fun r => r.title != "")).filter
    (fun r => r.viewers_millions.isSome)

/-- C2: every record surviving `clean_df` has a non-empty normalized
title and a present `viewers_millions`; only records violating one of
the two conditions are removed; and the survivors keep the input's
relative order (the output is a sublist of the mapped input). -/
theorem C2_clean_df_filter (rs : List NormalizedRecord) :
    (∀ r ∈ clean_df rs, r.title ≠ "" ∧ r.viewers_millions.isSome = true) ∧
      (clean_df rs).Sublist (rs.map cleanRecord) ∧
      (∀ r ∈ rs.map cleanRecord,
        r.title ≠ "" → r.viewers_millions.isSome = true → r ∈ clean_df rs) := by
  refine ⟨?_, ?_, ?_⟩
  · intro r hr
    rw [clean_df, List.mem_filter] at hr
    rcases hr with ⟨hr1, hsome⟩
    rw [List.mem_filter] at hr1
    rcases hr1 with ⟨_, hne⟩
    exact ⟨by simpa using hne, hsome⟩
  · exact (List.filter_sublist _).trans (List.filter_sublist _)
  · intro r hr hne hsome
    rw [clean_df, List.mem_filter]
    refine ⟨?_, hsome⟩
    rw [List.mem_filter]
    exact ⟨hr, by simpa using hne⟩

/-- Sample input record used to witness the filter theorem. -/
def sampleNR : NormalizedRecord :=
  { title := Cell.cstr "Super Bowl LVII"
    date := Cell.cstr "Feb 12, 2023[1]"
    viewers := Cell.cstr "115.1 million"
    network := Cell.cstr "Fox" }

theorem C2_clean_df_filter_witness : cleanRecord sampleNR ∈ clean_df [sampleNR] :=
  (C2_clean_df_filter [sampleNR]).2.2 (cleanRecord sampleNR)
    (List.mem_cons_self _ _) (by decide) (by decide)

/-- C6: `unify_tables` fails (with the source's error message) exactly
when the table list is empty; on any non-empty input it returns
normally, and the output has exactly one normalized record per input
row, tables and rows in encounter order. -/
theorem C6_unify_tables_error_iff (dfs : List (List RawTableRow)) :
    (unify_tables dfs = Except.error "No tables found on the page." ↔ dfs = []) ∧
      (dfs ≠ [] → unify_tables dfs = Except.ok (dfs.flatten.map normalizeRow)) ∧
      (∀ out, unify_tables dfs = Except.ok out →
        out.length = (dfs.map List.length).sum) := by
  cases dfs with
  | nil =>
    refine ⟨by simp [unify_tables], fun hne => absurd rfl hne, ?_⟩
    intro out hout
    simp [unify_tables] at hout
  | cons d rest =>
    refine ⟨?_, fun _ => rfl, ?_⟩
    · constructor
      · intro hh
        simp [unify_tables] at hh
      · intro hh
        exact absurd hh (by simp)
    · intro out hout
      have h1 : (d :: rest).flatten.map normalizeRow = out := by
        simpa [unify_tables] using hout
      subst h1
      simp only [List.length_map, List.length_flatten]

/-- Sample table list used to witness the unifier theorem: one table
with one row plus one empty table. -/
def sampleTables : List (List RawTableRow) := [[[("Show", Cell.cstr "A")]], []]

theorem C6_unify_tables_error_iff_witness :
    sampleTables ≠ [] ∧
      unify_tables sampleTables = Except.ok (sampleTables.flatten.map normalizeRow) :=
  ⟨by decide, (C6_unify_tables_error_iff sampleTables).2.1 (by decide)⟩

/-! ### Title-resolution precedence (claim C3) -/

theorem getLast?_mem_self {α : Type} {l : List α} {a : α}
    (h : l.getLast? = some a) : a ∈ l := by
  induction l with
  | nil => simp at h
  | cons x t ih =>
    cases t with
    | nil => simp at h; simp [h]
    | cons y t2 =>
      rw [List.getLast?_cons_cons] at h
      exact List.mem_cons_of_mem _ (ih h)

/-- Spec-side presence test: some column of the row lower-cases to the
candidate name. -/
def titlePresent (row : RawTableRow) (c : String) : Bool :=
  row.any (fun p => asciiLowerStr p.1 = c)

/-- Spec-side lookup: value of the column whose lower-cased label is the
candidate name (first in row order; unique under the distinctness
hypothesis of the theorem). -/
def lookupLower (row : RawTableRow) (c : String) : Option Cell :=
  (row.find? (fun p => asciiLowerStr p.1 = c)).map Prod.snd

/-- Claim C3 as stated: try the candidate names in priority order; the
first present column wins; a missing resolved value, or no present
candidate, falls back to the first non-empty string cell in original
column order. -/
def titleSpec (row : RawTableRow) : Cell :=
  match titleCands.find? (titlePresent row) with
  | some c =>
    match lookupLower row c with
    | some Cell.na => firstNonEmptyStringCell row
    | some v => v
    | none => firstNonEmptyStringCell row
  | none => firstNonEmptyStringCell row

theorem keysGet_bind_rowGet (row : RawTableRow)
    (hnd : (row.map (fun p => asciiLowerStr p.1)).Nodup) (c : String) :
    (keysGet row c).bind (rowGet row) = lookupLower row c := by
  induction row with
  | nil => rfl
  | cons p rest ih =>
    rw [List.map_cons, List.nodup_cons] at hnd
    by_cases hp : asciiLowerStr p.1 = c
    · have hfilter : (rest.map Prod.fst).filter (fun k => asciiLowerStr k = c) = [] := by
        rw [List.filter_eq_nil_iff]
        intro k hk
        simp only [decide_eq_true_eq]
        intro hkc
        refine hnd.1 ?_
        rcases List.mem_map.1 hk with ⟨q, hq, rfl⟩
        exact List.mem_map.2 ⟨q, hq, hkc.trans hp.symm⟩
      have hkeys : keysGet (p :: rest) c = some p.1 := by
        rw [keysGet, List.map_cons, List.filter_cons]
        simp [hp, hfilter]
      rw [hkeys]
      have hrow : rowGet (p :: rest) p.1 = some p.2 := by
        rw [rowGet, List.find?_cons_of_pos _ (by simp)]
        rfl
      rw [Option.some_bind, hrow, lookupLower,
        List.find?_cons_of_pos _ (by simp [hp])]
      rfl
    · have hkeys : keysGet (p :: rest) c = keysGet rest c := by
        rw [keysGet, List.map_cons, List.filter_cons]
        simp [hp, keysGet]
      rw [hkeys, lookupLower, List.find?_cons_of_neg _ (by simp [hp])]
      rw [← lookupLower, ← ih hnd.2]
      cases hk : keysGet rest c with
      | none => rfl
      | some k =>
        have hkc : asciiLowerStr k = c := by
          have hmem := getLast?_mem_self hk
          have := List.of_mem_filter hmem
          simpa using this
        have hne : ¬ p.1 = k := by
          intro he
          exact hp (he ▸ hkc)
        rw [Option.some_bind, Option.some_bind, rowGet, rowGet,
          List.find?_cons_of_neg _ (by simp [hne])]

theorem getLast?_cons_isSome {α : Type} (x : α) :
    ∀ xs : List α, ((x :: xs).getLast?).isSome = true := by
  intro xs
  induction xs generalizing x with
  | nil => rfl
  | cons y ys ih => rw [List.getLast?_cons_cons]; exact ih y

theorem keysGet_isSome_eq (row : RawTableRow) (c : String) :
    (keysGet row c).isSome = titlePresent row c := by
  rw [keysGet, titlePresent]
  cases hf : (row.map Prod.fst).filter (fun k => asciiLowerStr k = c) with
  | nil =>
    have hall : ∀ p ∈ row, ¬ (asciiLowerStr p.1 = c) := by
      intro p hp hpc
      have hmem : p.1 ∈ (row.map Prod.fst).filter (fun k => asciiLowerStr k = c) :=
        List.mem_filter.2 ⟨List.mem_map.2 ⟨p, hp, rfl⟩, by simp [hpc]⟩
      rw [hf] at hmem
      simp at hmem
    have hany : (List.any row fun p => decide (asciiLowerStr p.1 = c)) = false := by
      rw [List.any_eq_false]
      intro p hp
      simpa using hall p hp
    simp [hany]
  | cons x xs =>
    rw [getLast?_cons_isSome]
    have hx : x ∈ (row.map Prod.fst).filter (fun k => asciiLowerStr k = c) :=
      hf ▸ List.mem_cons_self x xs
    have h1 := List.of_mem_filter hx
    have h2 := List.mem_of_mem_filter hx
    rcases List.mem_map.1 h2 with ⟨q, hq, rfl⟩
    symm
    rw [List.any_eq_true]
    exact ⟨q, hq, h1⟩

theorem chain_bind_eq (row : RawTableRow)
    (hnd : (row.map (fun p => asciiLowerStr p.1)).Nodup) (cands : List String) :
    ((cands.findSome? (keysGet row)).bind (rowGet row)) =
      (cands.find? (titlePresent row)).bind (lookupLower row) := by
  induction cands with
  | nil => rfl
  | cons c cs ih =>
    rw [List.findSome?_cons]
    cases hk : keysGet row c with
    | some k =>
      have hpres : titlePresent row c = true := by
        rw [← keysGet_isSome_eq, hk]; rfl
      rw [List.find?_cons_of_pos _ hpres, Option.some_bind]
      have := keysGet_bind_rowGet row hnd c
      rw [hk, Option.some_bind] at this
      exact this
    | none =>
      have hpres : ¬ titlePresent row c = true := by
        rw [← keysGet_isSome_eq, hk]; simp
      rw [List.find?_cons_of_neg _ hpres]
      exact ih

/-- C3: on any row whose lower-cased column labels are pairwise
distinct, the code's title resolution (lower-cased key dictionary, `or`
chain of candidate lookups, `isna` fallback scan) agrees with the
spec's description: candidates in priority order, first present column
wins, fallback to the first non-empty string cell when the candidate is
absent or its value missing. -/
theorem C3_title_resolution (row : RawTableRow)
    (hnd : (row.map (fun p => asciiLowerStr p.1)).Nodup) :
    resolveTitle row = titleSpec row := by
  rw [resolveTitle, titleSpec, chain_bind_eq row hnd titleCands]
  cases hf : titleCands.find? (titlePresent row) with
  | none => rfl
  | some c =>
    simp only [Option.some_bind]
    cases hl : lookupLower row c with
    | none => rfl
    | some v =>
      cases v with
      | na => rfl
      | cstr s => rfl
      | cnum n => rfl

/-- Witness row with both a `Show` and a `Programme` column. -/
def rowShowProgramme : RawTableRow :=
  [("Show", Cell.cstr "A"), ("Programme", Cell.cstr "B"), ("Date", Cell.cstr "1999")]

/-- Witness row with no title-like column: the title falls back to the
first non-empty string cell (the missing and numeric cells are skipped). -/
def rowNoTitle : RawTableRow :=
  [("Date", Cell.na), ("Num", Cell.cnum 7), ("Y", Cell.cstr "first")]

theorem C3_title_resolution_witness :
    resolveTitle rowShowProgramme = Cell.cstr "A" ∧
      resolveTitle rowNoTitle = Cell.cstr "first" :=
  ⟨(C3_title_resolution rowShowProgramme (by decide)).trans (by decide),
   (C3_title_resolution rowNoTitle (by decide)).trans (by decide)⟩

/-! ### The publisher loop (`produce_to_kafka`, claim C7)

The network send is not part of the embedding; its outcome is an oracle
`ok : Nat → Bool` telling whether the `producer.send` for the i-th
record succeeds (`False` models the raised exception that the
`try/except` of lines 174–178 catches).  The loop of lines 164–178 is a
fold that counts successful sends and attempts every record. -/

/-- The wire-level projection of a cleaned record (lines 166–173). -/
structure PublishedMessage where
  title : String
  title_clean : String
  date : Cell
  year : Option Nat
  viewers_millions : Option ℚ
  network : Cell
  deriving DecidableEq, Repr

/-- `msg = {...}` of lines 166–173: a field-for-field projection
(`int(row['year'])` and `float(...)` keep the parsed values). -/
def buildMsg (r : CleanedRecord) : PublishedMessage :=
  { title := r.title
    title_clean := r.title_clean
    date := r.date
    year := r.year
    viewers_millions := r.viewers_millions
    network := r.network }

/-- The send loop (lines 164–178): `i` is the index of the next record,
`sent` the running count; the result is the final count and the list of
indices for which a send was attempted. -/
def sendLoop (ok : Nat → Bool) : Nat → Nat → List PublishedMessage → Nat × List Nat
  | _, sent, [] => (sent, [])
  | i, sent, _ :: rest =>
    let step := sendLoop ok (i + 1) (if ok i then sent + 1 else sent) rest
    (step.1, i :: step.2)

/-- `produce_to_kafka`'s counting behaviour (lines 151–181): run the
send loop over all candidate messages from index 0. -/
def produce_to_kafka (ok : Nat → Bool) (msgs : List PublishedMessage) : Nat × List Nat :=
  sendLoop ok 0 0 msgs

theorem sendLoop_spec (ok : Nat → Bool) :
    ∀ (l : List PublishedMessage) (i sent : Nat),
      (sendLoop ok i sent l).2 = (List.range l.length).map (· + i) ∧
        (sendLoop ok i sent l).1 = sent + ((sendLoop ok i sent l).2.filter ok).length := by
  intro l
  induction l with
  | nil => intro i sent; simp [sendLoop]
  | cons m rest ih =>
    intro i sent
    rw [sendLoop]
    rcases ih (i + 1) (if ok i then sent + 1 else sent) with ⟨h2, h1⟩
    constructor
    · simp only [h2, List.length_cons, List.range_succ_eq_map, List.map_cons,
        List.map_map, Nat.zero_add]
      refine congrArg (i :: ·) ?_
      apply List.map_congr_left
      intro j _
      simp [Function.comp]
      omega
    · simp only [h1, List.filter_cons]
      by_cases hok : ok i = true
      · rw [if_pos hok, if_pos hok]
        simp [List.length_cons]
        omega
      · rw [if_neg hok, if_neg hok]

/-- C7: a send failure for record `i` does not stop the loop — every
record's index is attempted regardless of the oracle — and the reported
count equals the number of successful sends, not the candidate count. -/
theorem C7_per_message_isolation (ok : Nat → Bool) (msgs : List PublishedMessage) :
    (produce_to_kafka ok msgs).2 = List.range msgs.length ∧
      (produce_to_kafka ok msgs).1 = ((List.range msgs.length).filter ok).length := by
  rcases sendLoop_spec ok msgs 0 0 with ⟨h2, h1⟩
  have hr : (List.range msgs.length).map (· + 0) = List.range msgs.length := by
    simp
  constructor
  · rw [produce_to_kafka, h2, hr]
  · rw [produce_to_kafka, h1, h2, hr, Nat.zero_add]

/-! ### The CSV sink (claim C8) -/

/-- Column label appended by `extract_tables` to every extracted table
(line 38). -/
def sourceIndexColumn : String := "_source_table_index"

/-- Columns of an extracted table (lines 35–39): the table's own
columns plus the source-table index tag. -/
def extractColumns (cols : List String) : List String := cols ++ [sourceIndexColumn]

/-- Columns of the unified frame: exactly the keys of the dict built on
lines 64–69 — the extraction tag is not among them. -/
def normalizedColumns : List String := ["title", "date", "viewers", "network"]

/-- Columns of the cleaned frame: `clean_df` appends `title_clean`
(line 130), `viewers_millions` (line 132) and `year` (line 134). -/
def cleanedColumns : List String :=
  normalizedColumns ++ ["title_clean", "viewers_millions", "year"]

/-- `cleaned.to_csv(OUTPUT_CSV, index=False)` (line 197): the written
file is the header of the cleaned frame's columns plus one data row per
cleaned record, with no index column. -/
def sinkFile (rs : List CleanedRecord) : List String × List CleanedRecord :=
  (cleanedColumns, rs)

/-- C8 as written fails on the code: the source-table index column is
added by `extract_tables` but dropped by `unify_tables` (the dict of
lines 64–69 has only the four target keys), so it is not among the
columns written to the sink file. -/
theorem C8_counterexample : ¬ (sourceIndexColumn ∈ (sinkFile []).1) := by decide

/-- C8 amended: the sink file contains one row per CleanedRecord with
exactly the columns `title, date, viewers, network, title_clean,
viewers_millions, year`; the internal source-table index column is
dropped at unification and not written, and no index column is
written. -/
theorem C8_sink_columns (rs : List CleanedRecord) :
    (sinkFile rs).1 =
        ["title", "date", "viewers", "network",
         "title_clean", "viewers_millions", "year"] ∧
      (sinkFile rs).2 = rs ∧
      sourceIndexColumn ∉ (sinkFile rs).1 := by
  refine ⟨rfl, rfl, ?_⟩
  show sourceIndexColumn ∉ cleanedColumns
  decide

/-- C9: the cleaning helpers are total on missing input — a missing
value passes through `remove_bracket_refs` unchanged and makes
`parse_viewers` and `extract_year` return absent — and on every string
the reference strip returns a string (a parse miss is a value, never a
failure). -/
theorem C9_parsers_total_on_missing :
    remove_bracket_refs Cell.na = Cell.na ∧
      parse_viewers Cell.na = none ∧
      extract_year Cell.na = none ∧
      (∀ s : String, ∃ t : String, remove_bracket_refs (Cell.cstr s) = Cell.cstr t) :=
  ⟨rfl, rfl, rfl, fun s => ⟨⟨rbrStr s.data⟩, rfl⟩⟩

/-! ### Non-negativity of parsed viewer counts (claim C10) -/

theorem decVal_nonneg (ip fp : List Char) : 0 ≤ decVal ip fp := by
  rw [decVal]
  have h2 : (0 : ℚ) ≤ (digitsVal fp : ℚ) / (10 : ℚ) ^ fp.length :=
    div_nonneg (Nat.cast_nonneg _) (pow_nonneg (by norm_num) _)
  have h1 : (0 : ℚ) ≤ (digitsVal ip : ℚ) := Nat.cast_nonneg _
  linarith

theorem matchMillionAt_nonneg {l : List Char} {q : ℚ}
    (h : matchMillionAt l = some q) : 0 ≤ q := by
  simp only [matchMillionAt] at h
  split at h
  · exact absurd h (by simp)
  · split at h
    · split at h
      · have := Option.some.inj h
        subst this
        exact decVal_nonneg _ _
      · split at h
        · have := Option.some.inj h
          subst this
          exact decVal_nonneg _ _
        · exact absurd h (by simp)
    · split at h
      · have := Option.some.inj h
        subst this
        exact decVal_nonneg _ _
      · exact absurd h (by simp)

theorem matchFullNumber_nonneg {l : List Char} {q : ℚ}
    (h : matchFullNumber l = some q) : 0 ≤ q := by
  simp only [matchFullNumber] at h
  split at h
  · exact absurd h (by simp)
  · split at h
    · have := Option.some.inj h
      subst this
      exact decVal_nonneg _ _
    · split at h
      · have := Option.some.inj h
        subst this
        exact decVal_nonneg _ _
      · exact absurd h (by simp)
    · exact absurd h (by simp)

theorem scanMillion_nonneg :
    ∀ {l : List Char} {q : ℚ}, scanSearch matchMillionAt l = some q → 0 ≤ q := by
  intro l
  induction l with
  | nil => intro q h; exact matchMillionAt_nonneg h
  | cons c rest ih =>
    intro q h
    rw [scanSearch] at h
    cases hm : matchMillionAt (c :: rest) with
    | some r =>
      rw [hm] at h
      have := Option.some.inj h
      subst this
      exact matchMillionAt_nonneg hm
    | none =>
      rw [hm] at h
      exact ih h

theorem parse_viewersStr_nonneg {l : List Char} {q : ℚ}
    (h : parse_viewersStr l = some q) : 0 ≤ q := by
  simp only [parse_viewersStr] at h
  cases h1 : scanSearch matchMillionAt (cleanViewersStr l) with
  | some r =>
    rw [h1] at h
    have := Option.some.inj h
    subst this
    exact scanMillion_nonneg h1
  | none =>
    rw [h1] at h
    cases h2 : scanSearch matchRun4At (cleanViewersStr l) with
    | some n =>
      rw [h2] at h
      have := Option.some.inj h
      subst this
      exact div_nonneg (Nat.cast_nonneg _) (by norm_num)
    | none =>
      rw [h2] at h
      cases h3 : matchFullNumber (cleanViewersStr l) with
      | some v =>
        rw [h3] at h
        dsimp only at h
        have hv := matchFullNumber_nonneg h3
        by_cases hgt : v > 100
        · rw [if_pos hgt] at h
          have := Option.some.inj h
          subst this
          exact div_nonneg hv (by norm_num)
        · rw [if_neg hgt] at h
          have := Option.some.inj h
          subst this
          exact hv
      | none =>
        rw [h3] at h
        exact absurd h (by simp)

/-- C10: every value produced by `parse_viewers` is non-negative, hence
every cleaned record's `viewers_millions` and every published message's
`viewers_millions` is non-negative. -/
theorem C10_viewers_nonneg :
    (∀ (c : Cell) (q : ℚ), parse_viewers c = some q → 0 ≤ q) ∧
      (∀ (rs : List NormalizedRecord) (r : CleanedRecord) (q : ℚ),
        r ∈ clean_df rs → r.viewers_millions = some q → 0 ≤ q) ∧
      (∀ (rs : List NormalizedRecord) (r : CleanedRecord) (q : ℚ),
        r ∈ clean_df rs → (buildMsg r).viewers_millions = some q → 0 ≤ q) := by
  have h1 : ∀ (c : Cell) (q : ℚ), parse_viewers c = some q → 0 ≤ q := by
    intro c q h
    cases c with
    | na => exact absurd h (by simp [parse_viewers])
    | cstr s => exact parse_viewersStr_nonneg h
    | cnum n => exact parse_viewersStr_nonneg h
  have h2 : ∀ (rs : List NormalizedRecord) (r : CleanedRecord) (q : ℚ),
      r ∈ clean_df rs → r.viewers_millions = some q → 0 ≤ q := by
    intro rs r q hr hq
    have hsub : r ∈ rs.map cleanRecord :=
      List.mem_of_mem_filter (List.mem_of_mem_filter hr)
    rcases List.mem_map.1 hsub with ⟨r0, _, rfl⟩
    have heq : (cleanRecord r0).viewers_millions =
        parse_viewers (remove_bracket_refs r0.viewers) := rfl
    exact h1 _ q (heq ▸ hq)
  exact ⟨h1, h2, fun rs r q hr hq => h2 rs r q hr hq⟩

theorem C10_viewers_nonneg_witness : 0 ≤ decVal "5".data [] :=
  C10_viewers_nonneg.1 (Cell.cstr "5 million") (decVal "5".data []) rfl

theorem C8_sink_columns_witness : (sinkFile []).1.length = 7 := by
  rw [(C8_sink_columns []).1]
  rfl
